import Mathlib

/-!
# Verification of the CIS activation rule (`src/rules/activate-new-users-in-CIS.js`)

A shallow embedding of the Auth0 rule that provisions newly authenticated users
into the CIS person store.  JavaScript values flowing through the rule are
modelled by the `Json` inductive; JavaScript truthiness, member access on
possibly-absent fields (where reading a property of `undefined`/`null` throws a
`TypeError`), and sloppy-mode property assignment are modelled explicitly.
The asynchronous orchestration (a promise chain whose every failure is caught
and converted into `callback(null, user, context)`) is modelled as a
deterministic interpreter over an environment that fixes the outcome of each
external call.  Events that can only happen after the current promise chain has
finished (the detached user-metadata update settling) are kept in a separate
`deferred` list; the observable trace is `main ++ deferred`.
-/

/-- JSON values, the data manipulated by the rule.  `obj` keeps fields in
insertion order, as JavaScript objects do.  `undefined` is represented by the
absence of a field (`Option.none` at access sites), never by a `Json` value. -/
inductive Json where
  | null
  | bool (b : Bool)
  | num (n : Int)
  | str (s : String)
  | arr (elems : List Json)
  | obj (fields : List (String × Json))

/-- Field lookup in an object's field list (first match). -/
def getF : List (String × Json) → String → Option Json
  | [], _ => none
  | (k', v') :: rest, k => if k' = k then some v' else getF rest k

/-- JavaScript property write on a field list: updates an existing key in
place (keeping order) or appends a new one. -/
def setF : List (String × Json) → String → Json → List (String × Json)
  | [], k, v => [(k, v)]
  | (k', v') :: rest, k, v => if k' = k then (k', v) :: rest else (k', v') :: setF rest k v

/-- JavaScript `delete o.k`: removes the key, keeping the order of the rest. -/
def delF : List (String × Json) → String → List (String × Json)
  | [], _ => []
  | (k', v') :: rest, k => if k' = k then rest else (k', v') :: delF rest k

/-- JavaScript property read `o.k`: a field of an object, `undefined` (`none`)
otherwise (boxed primitives have no own properties in this model). -/
def jsGet : Json → String → Option Json
  | .obj fs, k => getF fs k
  | _, _ => none

/-- Chained property reads `o.k1.k2...`, `none` when any step is `undefined`. -/
def jsGetPath : Json → List String → Option Json
  | j, [] => some j
  | j, k :: ks =>
    match jsGet j k with
    | some c => jsGetPath c ks
    | none => none

/-- JavaScript truthiness of a value. -/
def truthy : Json → Bool
  | .null => false
  | .bool b => b
  | .num n => n != 0
  | .str s => s != ""
  | .arr _ => true
  | .obj _ => true

/-- Truthiness of `o.k` (an absent field is `undefined`, hence falsy). -/
def truthyField (o : Json) (k : String) : Bool :=
  match jsGet o k with
  | some v => truthy v
  | none => false

/-- Truthiness of an optional configuration string (`undefined` and `""` are
falsy). -/
def truthyS : Option String → Bool
  | some s => s != ""
  | none => false

/-- JavaScript `a || b` over an optional string with a string fallback. -/
def jsOrS (a : Option String) (b : String) : String :=
  match a with
  | some s => if s != "" then s else b
  | none => b

/-- Whether the first character list starts with the second. -/
def leadsWith : List Char → List Char → Bool
  | [], _ => true
  | _ :: _, [] => false
  | p :: ps, c :: cs => p == c && leadsWith ps cs

/-- Whether the second character list contains the first as a contiguous run. -/
def containsSub : List Char → List Char → Bool
  | pat, [] => leadsWith pat []
  | pat, c :: cs => leadsWith pat (c :: cs) || containsSub pat cs

/-- JavaScript `String.prototype.includes` (substring test). -/
def strIncludes (s pat : String) : Bool :=
  containsSub pat.data s.data

/-- JavaScript `x === true`. -/
def isTrueJ : Json → Bool
  | .bool true => true
  | _ => false

/-- Whether an optional read produced an explicit `null` (JavaScript
`o.k === null`; an absent field is `undefined`, which is `!== null`). -/
def isExplicitNull : Option Json → Bool
  | some .null => true
  | _ => false

/-- JavaScript property assignment along a path, `a.k1.k2... = v`.
Reading an intermediate property of `null` throws (`.error`), as does reading a
property of `undefined` (an absent field); in sloppy mode, assigning a property
on a primitive is a silent no-op. -/
def jsSetPath : Json → List String → Json → Except Unit Json
  | _, [], v => .ok v
  | .null, _ :: _, _ => .error ()
  | .obj fs, [k], v => .ok (.obj (setF fs k v))
  | .obj fs, k :: k2 :: ks, v =>
    match getF fs k with
    | none => .error ()
    | some c => (jsSetPath c (k2 :: ks) v).map (fun c' => .obj (setF fs k c'))
  | o, [_], _ => .ok o
  | _, _ :: _ :: _, _ => .error ()

/-- Performs a list of path assignments in order, stopping at the first
thrown `TypeError`. -/
def writeAll : Json → List (List String × Json) → Except Unit Json
  | p, [] => .ok p
  | p, (pth, v) :: rest => (jsSetPath p pth v) >>= fun p' => writeAll p' rest

/- ## Constants of the rule (lines 2-9 of the source) -/

/-- `PERSONAPI_BEARER_TOKEN_REFRESH_AGE = 64800` (the source comments call it
"18 hours", but the value is compared against a difference of `Date.now()`
values, which are milliseconds). -/
def PERSONAPI_BEARER_TOKEN_REFRESH_AGE : Nat := 64800

/-- `PUBLISHER_NAME = 'access_provider'`. -/
def PUBLISHER_NAME : String := "access_provider"

/-- `WHITELISTED_CONNECTIONS`. -/
def WHITELISTED_CONNECTIONS : List String :=
  ["email", "firefoxaccounts", "github", "google-oauth2", "oauth2"]

/- ## Input records -/

/-- `user_metadata` / `primaryUserMetadata`: only the `existsInCIS` flag is
relevant to the rule (JavaScript truthiness of the stored value collapsed to
`Bool`). -/
structure Meta where
  existsInCIS : Bool

/-- Optional `profileData` carried by a linked identity. -/
structure ProfileData where
  node_id : Json
  email : Json
  email_verified : Json

/-- One entry of `user.identities`. -/
structure Identity where
  connection : String
  provider : String
  user_id : Json
  profileData : Option ProfileData

/-- The caller-supplied user record (fields the rule reads). -/
structure User where
  user_id : String
  email : String
  given_name : Option String
  name : Option String
  family_name : Option String
  nickname : Option String
  user_metadata : Option Meta
  identities : List Identity

/-- The caller-supplied context record (fields the rule reads). -/
structure Context where
  connectionStrategy : String
  primaryUser : Option String
  primaryUserMetadata : Option Meta

/-- The configuration bag; each setting may be absent (`undefined`). -/
structure Config where
  changeapi_auth0_private_key : Option String
  changeapi_null_profile : Option String
  changeapi_url : Option String
  personapi_client_id : Option String
  personapi_client_secret : Option String
  personapi_url : Option String
  personapi_audience : Option String
  personapi_oauth_url : Option String

/-- The process-wide globals used as the bearer-token cache. -/
structure Globals where
  personapi_bearer_token : Option Json
  personapi_bearer_token_creation_time : Option Nat

/-- `METADATA = context.primaryUserMetadata || user.user_metadata || {}`
(objects are always truthy, so the first present mapping wins). -/
def metadataOf (ctx : Context) (u : User) : Meta :=
  ((ctx.primaryUserMetadata).orElse (fun _ => u.user_metadata)).getD ⟨false⟩

/- ## Profile builder (`createPersonProfile`, lines 92-203)

The builder is a sequence of path assignments on the decoded skeleton; the
assignments are listed in source order and executed by `writeAll`. -/

/-- `user.given_name || user.name || user.family_name || user.nickname || ' '`. -/
def firstNameValue (u : User) : String :=
  jsOrS u.given_name (jsOrS u.name (jsOrS u.family_name (jsOrS u.nickname " ")))

/-- `user.family_name ? user.family_name : ' '`. -/
def lastNameValue (u : User) : String :=
  jsOrS u.family_name " "

/-- The top-level skeleton updates (lines 105-126), in source order. -/
def topWritesList (u : User) (userId now : String) : List (List String × Json) :=
  [ (["active", "metadata", "last_modified"], .str now),
    (["active", "signature", "publisher", "name"], .str PUBLISHER_NAME),
    (["active", "value"], .bool true),
    (["first_name", "metadata", "display"], .str "private"),
    (["first_name", "metadata", "last_modified"], .str now),
    (["first_name", "signature", "publisher", "name"], .str PUBLISHER_NAME),
    (["first_name", "value"], .str (firstNameValue u)),
    (["last_name", "metadata", "display"], .str "private"),
    (["last_name", "metadata", "last_modified"], .str now),
    (["last_name", "signature", "publisher", "name"], .str PUBLISHER_NAME),
    (["last_name", "value"], .str (lastNameValue u)),
    (["primary_email", "metadata", "last_modified"], .str now),
    (["primary_email", "signature", "publisher", "name"], .str PUBLISHER_NAME),
    (["primary_email", "value"], .str u.email),
    (["user_id", "metadata", "last_modified"], .str now),
    (["user_id", "signature", "publisher", "name"], .str PUBLISHER_NAME),
    (["user_id", "value"], .str userId) ]

/-- The `login_method` writes (lines 140-142), performed only when `i === 0`. -/
def writes_login (now conn : String) : List (List String × Json) :=
  [ (["login_method", "metadata", "last_modified"], .str now),
    (["login_method", "signature", "publisher", "name"], .str PUBLISHER_NAME),
    (["login_method", "value"], .str conn) ]

/-- The GitHub identity writes (lines 145-170).  Note: the `usernames` block
(lines 151-155) sets `metadata.display`, `signature.publisher.name` and
`values`, but not `metadata.last_modified`. -/
def writes_github (u : User) (now : String) (idn : Identity) : List (List String × Json) :=
  [ (["identities", "github_id_v3", "metadata", "display"], .str "private"),
    (["identities", "github_id_v3", "metadata", "last_modified"], .str now),
    (["identities", "github_id_v3", "signature", "publisher", "name"], .str PUBLISHER_NAME),
    (["identities", "github_id_v3", "value"], idn.user_id) ]
  ++ (if truthyS u.nickname then
      [ (["usernames", "metadata", "display"], .str "private"),
        (["usernames", "signature", "publisher", "name"], .str PUBLISHER_NAME),
        (["usernames", "values"], .obj [("HACK#GITHUB", .str (u.nickname.getD ""))]) ]
      else [])
  ++ (match idn.profileData with
      | some pd =>
        [ (["identities", "github_id_v4", "metadata", "display"], .str "private"),
          (["identities", "github_id_v4", "metadata", "last_modified"], .str now),
          (["identities", "github_id_v4", "signature", "publisher", "name"], .str PUBLISHER_NAME),
          (["identities", "github_id_v4", "value"], pd.node_id),
          (["identities", "github_primary_email", "metadata", "display"], .str "private"),
          (["identities", "github_primary_email", "metadata", "last_modified"], .str now),
          (["identities", "github_primary_email", "metadata", "verified"], .bool (isTrueJ pd.email_verified)),
          (["identities", "github_primary_email", "signature", "publisher", "name"], .str PUBLISHER_NAME),
          (["identities", "github_primary_email", "value"], pd.email) ]
      | none => [])

/-- The Google identity writes (lines 172-182). -/
def writes_google (u : User) (now : String) (idn : Identity) : List (List String × Json) :=
  [ (["identities", "google_oauth2_id", "metadata", "display"], .str "private"),
    (["identities", "google_oauth2_id", "metadata", "last_modified"], .str now),
    (["identities", "google_oauth2_id", "signature", "publisher", "name"], .str PUBLISHER_NAME),
    (["identities", "google_oauth2_id", "value"], idn.user_id),
    (["identities", "google_primary_email", "metadata", "display"], .str "private"),
    (["identities", "google_primary_email", "metadata", "last_modified"], .str now),
    (["identities", "google_primary_email", "signature", "publisher", "name"], .str PUBLISHER_NAME),
    (["identities", "google_primary_email", "value"], .str u.email) ]

/-- The Firefox-Accounts identity writes (lines 184-194). -/
def writes_firefox (u : User) (now : String) (idn : Identity) : List (List String × Json) :=
  [ (["identities", "firefox_accounts_id", "metadata", "display"], .str "private"),
    (["identities", "firefox_accounts_id", "metadata", "last_modified"], .str now),
    (["identities", "firefox_accounts_id", "signature", "publisher", "name"], .str PUBLISHER_NAME),
    (["identities", "firefox_accounts_id", "value"], idn.user_id),
    (["identities", "firefox_accounts_primary_email", "metadata", "display"], .str "private"),
    (["identities", "firefox_accounts_primary_email", "metadata", "last_modified"], .str now),
    (["identities", "firefox_accounts_primary_email", "signature", "publisher", "name"], .str PUBLISHER_NAME),
    (["identities", "firefox_accounts_primary_email", "value"], .str u.email) ]

/-- The provider dispatch of the identity loop body (lines 145-194). -/
def providerWrites (u : User) (now : String) (idn : Identity) : List (List String × Json) :=
  if idn.provider == "github" then writes_github u now idn
  else if idn.provider == "google-oauth2" then writes_google u now idn
  else if idn.connection == "firefoxaccounts" && idn.provider == "oauth2" then
    writes_firefox u now idn
  else []

/-- One iteration of the identity loop (lines 131-195): a non-whitelisted
connection is skipped entirely; the `login_method` block runs only at
index 0. -/
def identityWrites (u : User) (now : String) (i : Nat) (idn : Identity) :
    List (List String × Json) :=
  if ¬ WHITELISTED_CONNECTIONS.contains idn.connection then []
  else (if i == 0 then writes_login now idn.connection else []) ++ providerWrites u now idn

/-- The identity loop, threading the mutated profile and the index. -/
def applyIdentities (u : User) (now : String) :
    Json → Nat → List Identity → Except Unit Json
  | p, _, [] => .ok p
  | p, i, idn :: rest =>
    (writeAll p (identityWrites u now i idn)) >>= fun p' =>
      applyIdentities u now p' (i + 1) rest

/-- The profile builder without the final signing pass (lines 92-195). -/
def buildProfile (skel : Json) (u : User) (userId now : String) : Except Unit Json := do
  let p ← writeAll skel (topWritesList u userId now)
  applyIdentities u now p 0 u.identities

/- ## Attribute signer (`signAll`/`signAttribute`, lines 244-291)

`jwt.sign(attr, privateKey, ...)` is abstracted as a caller-supplied function
`sig : Json → String` of the attribute content (the attribute after numeric
coercion and after `delete(attr.signature)`), since only the structural
behaviour of signing is relevant to the claims. -/

/-- The fresh signature envelope (lines 275-288): an `additional` placeholder
list with one empty entry, and a `publisher` entry carrying the detached
signature value. -/
def newSignature (sigVal : String) : Json :=
  .obj [ ("additional", .arr [ .obj [ ("alg", .str "RS256"), ("name", .null),
                                      ("typ", .str "JWS"), ("value", .str "") ] ]),
         ("publisher", .obj [ ("alg", .str "RS256"), ("name", .str PUBLISHER_NAME),
                              ("typ", .str "JWS"), ("value", .str sigVal) ]) ]

/-- Numeric coercion (lines 267-270): `if (attr.value && typeof attr.value ===
"number") attr.value = attr.value.toString();` — note the truthiness guard, so
the number `0` is not coerced. -/
def coerceValue (attr : Json) : Json :=
  match attr with
  | .obj fs =>
    match getF fs "value" with
    | some (.num n) => if n != 0 then .obj (setF fs "value" (.str (toString n))) else attr
    | _ => attr
  | _ => attr

/-- The successful signing result (lines 267-290): coerce the value, delete the
old signature, and append a fresh envelope whose detached signature is computed
over the attribute content without the signature field. -/
def freshSigned (sig : Json → String) (attr : Json) : Json :=
  match coerceValue attr with
  | .obj fs =>
    .obj (delF fs "signature" ++
      [("signature", newSignature (sig (.obj (delF fs "signature"))))])
  | j => j

/-- `signAttribute` (lines 257-291).  The guard on line 263 reads
`attr.signature.publisher.name` after establishing `attr.signature` is truthy;
reading `.name` of an `undefined` or `null` publisher throws. -/
def signAttribute (sig : Json → String) (attr : Json) : Except Unit Json :=
  if truthyField attr "signature" = false then .ok attr
  else
    match jsGet attr "signature" with
    | none => .ok attr
    | some s =>
      match jsGet s "publisher" with
      | none => .error ()
      | some .null => .error ()
      | some pv =>
        let nmOk : Bool :=
          match jsGet pv "name" with
          | some (.str nm) => nm == PUBLISHER_NAME
          | _ => false
        if nmOk = false then .ok attr
        else if isExplicitNull (jsGet attr "value") then .ok attr
        else if isExplicitNull (jsGet attr "values") then .ok attr
        else .ok (freshSigned sig attr)

mutual
/-- `signAll` (lines 244-255): visit each named child of the (mutable) profile
in insertion order.  A child that is a plain object with a truthy `signature`
field is signed; a plain object without one is recursed into; for a `null`
child, `attr.constructor` throws a `TypeError`; any other child (array,
string, number, boolean) is skipped. -/
def signAll (sig : Json → String) : Json → Except Unit Json
  | .obj fs => (signFields sig fs).map Json.obj
  | j => .ok j

/-- The `Object.values(profile).forEach` body of `signAll`, one named child at
a time. -/
def signFields (sig : Json → String) : List (String × Json) → Except Unit (List (String × Json))
  | [] => .ok []
  | (k, v) :: rest =>
    match v with
    | .null => .error ()
    | .obj fs =>
      if truthyField (.obj fs) "signature" then
        match signAttribute sig (.obj fs) with
        | .error e => .error e
        | .ok v' => (signFields sig rest).map (fun r => (k, v') :: r)
      else
        match signAll sig (.obj fs) with
        | .error e => .error e
        | .ok v' => (signFields sig rest).map (fun r => (k, v') :: r)
    | other => (signFields sig rest).map (fun r => (k, other) :: r)
end

/-- `createPersonProfile` (lines 92-203): build the profile from the decoded
skeleton, then sign every eligible field. -/
def createPersonProfile (skel : Json) (u : User) (userId now : String)
    (sig : Json → String) : Except Unit Json := do
  let built ← buildProfile skel u userId now
  signAll sig built

/- ## Orchestration (lines 53-90, 205-242, 293-335) -/

/-- The remote endpoints the rule can contact. -/
inductive NetCall where
  | oauthToken
  | personGet
  | changePost
  | metadataUpdate
deriving DecidableEq, Repr

/-- Observable events of one invocation, in order of occurrence. -/
inductive Event where
  | netCall (c : NetCall)
  | profileBuilt
  | profileSigned
  | localMetadataSet (b : Bool)
  | callbackInvoked (err : Option String)
  | metadataUpdateSettled (ok : Bool)
deriving DecidableEq, Repr

/-- The cached-token validity check (lines 55-57): both globals truthy
(`Date.now()` being a positive count of milliseconds, `0` is falsy) and the age
below `PERSONAPI_BEARER_TOKEN_REFRESH_AGE`.  `Nat` subtraction agrees with the
JavaScript comparison: a creation instant in the future also passes. -/
def tokenFresh (g : Globals) (now : Nat) : Bool :=
  (match g.personapi_bearer_token with
   | some t => truthy t
   | none => false) &&
  (match g.personapi_bearer_token_creation_time with
   | some c => (c != 0) && decide (now - c < PERSONAPI_BEARER_TOKEN_REFRESH_AGE)
   | none => false)

/-- Result of `getBearerToken`: emitted events, the updated globals, and the
returned token (`.error` models the rejected promise). -/
structure TokRes where
  events : List Event
  g : Globals
  res : Except Unit (Option Json)

/-- `getBearerToken` (lines 53-90).  With a fresh cache, no I/O.  Otherwise a
token POST is attempted: when `personapi_oauth_url` is not a usable URL
(absent or empty), `fetch` rejects before any network I/O; when the request is
made, the environment decides its outcome, and on success
`data.access_token` (possibly `undefined`) is stored together with the current
time. -/
def getBearerToken (cfg : Config) (g : Globals) (now : Nat)
    (oauthR : Except Unit Json) : TokRes :=
  if tokenFresh g now then ⟨[], g, .ok g.personapi_bearer_token⟩
  else if truthyS cfg.personapi_oauth_url then
    match oauthR with
    | .ok body =>
      let tok := jsGet body "access_token"
      ⟨[.netCall .oauthToken], ⟨tok, some now⟩, .ok tok⟩
    | .error _ => ⟨[.netCall .oauthToken], g, .error ()⟩
  else ⟨[], g, .error ()⟩

/-- `Object.keys(x).length` (line 311): throws on `null`, counts keys of an
object, indices of an array, characters of a string, and yields 0 on other
primitives. -/
def jsObjectKeysLen : Json → Except Unit Nat
  | .null => .error ()
  | .obj fs => .ok fs.length
  | .arr xs => .ok xs.length
  | .str s => .ok s.length
  | _ => .ok 0

/-- The success test on the ChangeAPI response (line 320):
`response.constructor === Object && response.status_code === 200`; reading
`.constructor` of `null` throws. -/
def statusCheck : Json → Except Unit Bool
  | .null => .error ()
  | .obj fs =>
    .ok (match getF fs "status_code" with
         | some (.num n) => n == 200
         | _ => false)
  | _ => .ok false

/-- `setExistsInCIS` (lines 293-305): synchronously sets `existsInCIS = true`
on the in-memory metadata, then fires the remote metadata update without
awaiting it.  Returns the events that happen inside the call and the updated
metadata; the update's settlement is deferred past the current promise chain. -/
def setExistsInCIS (m : Meta) : List Event × Meta :=
  ([.localMetadataSet true, .netCall .metadataUpdate],
   { m with existsInCIS := true })

/-- Result of the synchronous part and promise chain of one invocation. -/
structure AuxOut where
  main : List Event
  didSetExists : Bool
  thrown : Bool
  g : Globals
  meta : Meta

/-- The whole rule body (lines 1-335) minus the scheduling of the detached
metadata update.  `thrown = true` models an exception escaping synchronously to
the caller (the completion hook is then never invoked).  The promise chain
models lines 309-335: every rejection reaches the final `.catch`, which calls
`callback(null, user, context)`. -/
def runAux (cfg : Config) (u : User) (ctx : Context) (g : Globals)
    (now : Nat) (nowIso : String)
    (oauthR personR changeR skelR : Except Unit Json)
    (sig : Json → String) : AuxOut :=
  let meta0 := metadataOf ctx u
  if ¬ (truthyS cfg.changeapi_auth0_private_key &&
        truthyS cfg.changeapi_null_profile &&
        truthyS cfg.changeapi_url &&
        truthyS cfg.personapi_client_id &&
        truthyS cfg.personapi_client_secret &&
        truthyS cfg.personapi_url) then
    ⟨[.callbackInvoked none], false, false, g, meta0⟩
  else
    match cfg.personapi_audience with
    | none => ⟨[], false, true, g, meta0⟩
    | some aud =>
      if strIncludes aud "https" || strIncludes (cfg.personapi_url.getD "") "/v" then
        ⟨[.callbackInvoked none], false, false, g, meta0⟩
      else if ¬ (WHITELISTED_CONNECTIONS.contains ctx.connectionStrategy) then
        ⟨[.callbackInvoked none], false, false, g, meta0⟩
      else if meta0.existsInCIS then
        ⟨[.callbackInvoked none], false, false, g, meta0⟩
      else
        let userId := jsOrS ctx.primaryUser u.user_id
        let t1 := getBearerToken cfg g now oauthR
        match t1.res with
        | .error _ => ⟨t1.events ++ [.callbackInvoked none], false, false, t1.g, meta0⟩
        | .ok _ =>
          let ev1 := t1.events ++ [.netCall .personGet]
          match personR with
          | .error _ => ⟨ev1 ++ [.callbackInvoked none], false, false, t1.g, meta0⟩
          | .ok pbody =>
            match jsObjectKeysLen pbody with
            | .error _ => ⟨ev1 ++ [.callbackInvoked none], false, false, t1.g, meta0⟩
            | .ok n =>
              if n ≠ 0 then
                let se := setExistsInCIS meta0
                ⟨ev1 ++ se.1 ++ [.callbackInvoked none], true, false, t1.g, se.2⟩
              else
                let ev2 := ev1 ++ [.profileBuilt]
                match skelR with
                | .error _ => ⟨ev2 ++ [.callbackInvoked none], false, false, t1.g, meta0⟩
                | .ok skel =>
                  match createPersonProfile skel u userId nowIso sig with
                  | .error _ => ⟨ev2 ++ [.callbackInvoked none], false, false, t1.g, meta0⟩
                  | .ok _ =>
                    let ev3 := ev2 ++ [.profileSigned]
                    let t2 := getBearerToken cfg t1.g now oauthR
                    match t2.res with
                    | .error _ =>
                      ⟨ev3 ++ t2.events ++ [.callbackInvoked none], false, false, t2.g, meta0⟩
                    | .ok _ =>
                      let ev4 := ev3 ++ t2.events ++ [.netCall .changePost]
                      match changeR with
                      | .error _ => ⟨ev4 ++ [.callbackInvoked none], false, false, t2.g, meta0⟩
                      | .ok rbody =>
                        match statusCheck rbody with
                        | .error _ => ⟨ev4 ++ [.callbackInvoked none], false, false, t2.g, meta0⟩
                        | .ok true =>
                          let se := setExistsInCIS meta0
                          ⟨ev4 ++ se.1 ++ [.callbackInvoked none], true, false, t2.g, se.2⟩
                        | .ok false =>
                          ⟨ev4 ++ [.callbackInvoked none], false, false, t2.g, meta0⟩

/-- The environment fixing every nondeterministic input of one invocation:
the clock, the outcome of each external call, the decoded skeleton
(`JSON.parse(Buffer.from(configuration.changeapi_null_profile, 'base64'))`),
and the JWT signing function derived from the configured private key. -/
structure Env where
  now : Nat
  nowIso : String
  oauthResult : Except Unit Json
  personResult : Except Unit Json
  changeResult : Except Unit Json
  decodedSkeleton : Except Unit Json
  sigFun : Json → String
  metadataUpdateOk : Bool

/-- The observable outcome of one invocation.  `main` is everything that
happens up to and including the completion hook; `deferred` holds the
settlement of the detached metadata update, which the event loop can only
deliver after the promise chain (hence after the hook).  The full trace is
`main ++ deferred`. -/
structure RunOut where
  main : List Event
  deferred : List Event
  thrown : Bool
  g : Globals
  meta : Meta

/-- One invocation of the rule. -/
def runRule (cfg : Config) (u : User) (ctx : Context) (g : Globals) (env : Env) : RunOut :=
  let r := runAux cfg u ctx g env.now env.nowIso env.oauthResult env.personResult
    env.changeResult env.decodedSkeleton env.sigFun
  { main := r.main,
    deferred := if r.didSetExists then [.metadataUpdateSettled env.metadataUpdateOk] else [],
    thrown := r.thrown,
    g := r.g,
    meta := r.meta }

/- ## A representative skeleton -/

/-- Modelled from the spec: a leaf `Attribute` node of the externally supplied
`ProfileSkeleton` (the CIS `user_profile_null.json` template referenced in the
source comment on line 99, which is configuration data, not repository code):
a `metadata` sub-record, a `signature` sub-record with an empty publisher
name, and a `null` value. -/
def leafAttr : Json :=
  .obj [ ("metadata", .obj [ ("classification", .str "PUBLIC"), ("display", .null),
                             ("last_modified", .null), ("verified", .bool false) ]),
         ("signature", .obj [ ("additional", .arr [ .obj [ ("alg", .str "RS256"),
                                ("name", .null), ("typ", .str "JWS"), ("value", .str "") ] ]),
                              ("publisher", .obj [ ("alg", .str "RS256"), ("name", .str ""),
                                ("typ", .str "JWS"), ("value", .str "") ]) ]),
         ("value", .null) ]

/-- Modelled from the spec: a leaf node of the `values`-kind (used by
`usernames`), carrying a `values` mapping instead of a scalar `value`. -/
def valuesAttr : Json :=
  .obj [ ("metadata", .obj [ ("classification", .str "PUBLIC"), ("display", .null),
                             ("last_modified", .null), ("verified", .bool false) ]),
         ("signature", .obj [ ("additional", .arr [ .obj [ ("alg", .str "RS256"),
                                ("name", .null), ("typ", .str "JWS"), ("value", .str "") ] ]),
                              ("publisher", .obj [ ("alg", .str "RS256"), ("name", .str ""),
                                ("typ", .str "JWS"), ("value", .str "") ]) ]),
         ("values", .null) ]

/-- Modelled from the spec: a representative decoded `ProfileSkeleton` with the
attributes the builder touches — scalar leaves, the `values`-kind `usernames`
leaf, and the `identities` container (an object with no `signature` field). -/
def nullProfile : Json :=
  .obj [ ("user_id", leafAttr),
         ("active", leafAttr),
         ("first_name", leafAttr),
         ("last_name", leafAttr),
         ("primary_email", leafAttr),
         ("login_method", leafAttr),
         ("usernames", valuesAttr),
         ("identities", .obj [ ("github_id_v3", leafAttr),
                               ("github_id_v4", leafAttr),
                               ("github_primary_email", leafAttr),
                               ("google_oauth2_id", leafAttr),
                               ("google_primary_email", leafAttr),
                               ("firefox_accounts_id", leafAttr),
                               ("firefox_accounts_primary_email", leafAttr) ]) ]

/- ## General lemmas about the embedding -/

theorem bindOk {α β : Type} {x : Except Unit α} {f : α → Except Unit β} {b : β}
    (h : (x >>= f) = .ok b) : ∃ a, x = .ok a ∧ f a = .ok b := by
  cases x with
  | ok a => exact ⟨a, rfl, h⟩
  | error e => exact Except.noConfusion h

theorem mapOk {α β : Type} {x : Except Unit α} {f : α → β} {b : β}
    (h : x.map f = .ok b) : ∃ a, x = .ok a ∧ f a = b := by
  cases x with
  | ok a =>
    exact ⟨a, rfl, Except.ok.inj h⟩
  | error e => exact Except.noConfusion h

theorem getF_setF_self (fs : List (String × Json)) (k : String) (v : Json) :
    getF (setF fs k v) k = some v := by
  induction fs with
  | nil => simp [setF, getF]
  | cons hd tl ih =>
    obtain ⟨k', v'⟩ := hd
    simp only [setF]
    by_cases h : k' = k
    · rw [if_pos h]
      simp [getF, h]
    · rw [if_neg h]
      simp [getF, h, ih]

theorem getF_setF_ne (fs : List (String × Json)) (k k' : String) (v : Json)
    (h : k' ≠ k) : getF (setF fs k v) k' = getF fs k' := by
  induction fs with
  | nil => simp [setF, getF, Ne.symm h]
  | cons hd tl ih =>
    obtain ⟨k0, v0⟩ := hd
    simp only [setF]
    by_cases h0 : k0 = k
    · rw [if_pos h0]
      have hne : ¬ (k0 = k') := by
        rw [h0]
        exact fun hc => h hc.symm
      simp [getF, hne]
    · rw [if_neg h0]
      simp [getF, ih]

/-- Two paths diverge when they disagree at a position both of them reach:
a write along one then cannot affect a read along the other. -/
def pathDiverges : List String → List String → Bool
  | p :: ps, q :: qs => (p != q) || pathDiverges ps qs
  | _, _ => false

theorem jsSetPath_frame {v : Json} :
    ∀ (P : List String) (p q : Json) (Q : List String),
      pathDiverges P Q = true → jsSetPath p P v = .ok q →
      jsGetPath q Q = jsGetPath p Q := by
  intro P
  induction P with
  | nil => intro p q Q hd; simp [pathDiverges] at hd
  | cons k ks ih =>
    intro p q Q hd hset
    cases Q with
    | nil => simp [pathDiverges] at hd
    | cons K Ks =>
      by_cases hk : k = K
      · subst hk
        have hd' : pathDiverges ks Ks = true := by simpa [pathDiverges] using hd
        cases p with
        | null => cases ks <;> exact Except.noConfusion hset
        | obj fs =>
          cases ks with
          | nil => simp [pathDiverges] at hd'
          | cons k2 ks' =>
            simp only [jsSetPath] at hset
            cases hget : getF fs k with
            | none => rw [hget] at hset; exact Except.noConfusion hset
            | some c =>
              rw [hget] at hset
              obtain ⟨c', hc', hq⟩ := mapOk hset
              subst hq
              simp only [jsGetPath, jsGet, hget, getF_setF_self]
              exact ih c c' Ks hd' hc'
        | bool b =>
          cases ks with
          | nil => injection hset with h; rw [← h]
          | cons k2 ks' => exact Except.noConfusion hset
        | num n =>
          cases ks with
          | nil => injection hset with h; rw [← h]
          | cons k2 ks' => exact Except.noConfusion hset
        | str s =>
          cases ks with
          | nil => injection hset with h; rw [← h]
          | cons k2 ks' => exact Except.noConfusion hset
        | arr xs =>
          cases ks with
          | nil => injection hset with h; rw [← h]
          | cons k2 ks' => exact Except.noConfusion hset
      · cases p with
        | null => cases ks <;> exact Except.noConfusion hset
        | obj fs =>
          cases ks with
          | nil =>
            injection hset with h
            rw [← h]
            simp only [jsGetPath, jsGet, getF_setF_ne fs k K v (fun hc => hk hc.symm)]
          | cons k2 ks' =>
            simp only [jsSetPath] at hset
            cases hget : getF fs k with
            | none => rw [hget] at hset; exact Except.noConfusion hset
            | some c =>
              rw [hget] at hset
              obtain ⟨c', hc', hq⟩ := mapOk hset
              subst hq
              simp only [jsGetPath, jsGet, getF_setF_ne fs k K c' (fun hc => hk hc.symm)]
        | bool b =>
          cases ks with
          | nil => injection hset with h; rw [← h]
          | cons k2 ks' => exact Except.noConfusion hset
        | num n =>
          cases ks with
          | nil => injection hset with h; rw [← h]
          | cons k2 ks' => exact Except.noConfusion hset
        | str s =>
          cases ks with
          | nil => injection hset with h; rw [← h]
          | cons k2 ks' => exact Except.noConfusion hset
        | arr xs =>
          cases ks with
          | nil => injection hset with h; rw [← h]
          | cons k2 ks' => exact Except.noConfusion hset

theorem writeAll_append (l1 l2 : List (List String × Json)) (p : Json) :
    writeAll p (l1 ++ l2) = (writeAll p l1) >>= fun p' => writeAll p' l2 := by
  induction l1 generalizing p with
  | nil => rfl
  | cons hd tl ih =>
    obtain ⟨P, v⟩ := hd
    simp only [List.cons_append, writeAll]
    cases jsSetPath p P v with
    | ok p' => simpa using ih p'
    | error e => rfl

theorem writeAll_frame {Q : List String} :
    ∀ (l : List (List String × Json)) (p q : Json),
      (∀ pv ∈ l, pathDiverges pv.1 Q = true) →
      writeAll p l = .ok q → jsGetPath q Q = jsGetPath p Q := by
  intro l
  induction l with
  | nil => intro p q _ h; injection h with h; rw [h]
  | cons hd tl ih =>
    intro p q hdiv h
    obtain ⟨P, v⟩ := hd
    obtain ⟨p', h1, h2⟩ := bindOk h
    have e1 := jsSetPath_frame P p p' Q (hdiv (P, v) (List.mem_cons_self _ _)) h1
    have e2 := ih p' q (fun pv hm => hdiv pv (List.mem_cons_of_mem _ hm)) h2
    rw [e2, e1]

/- ## Lemmas about the identity loop and `login_method` -/

theorem allDiverge_mem {Q : List String} :
    ∀ (l : List (List String × Json)),
      (l.all (fun pv => pathDiverges pv.1 Q)) = true →
      ∀ pv ∈ l, pathDiverges pv.1 Q = true := by
  intro l
  induction l with
  | nil =>
    intro _ pv hm
    cases hm
  | cons hd tl ih =>
    intro h pv hm
    rw [List.all_cons, Bool.and_eq_true] at h
    rcases List.mem_cons.mp hm with hm' | hm'
    · rw [hm']
      exact h.1
    · exact ih h.2 pv hm'

theorem providerWrites_lm (u : User) (now : String) (idn : Identity) :
    ∀ pv ∈ providerWrites u now idn,
      pathDiverges pv.1 ["login_method", "value"] = true := by
  apply allDiverge_mem
  unfold providerWrites
  split
  · unfold writes_github
    cases hpd : idn.profileData <;> cases hn : truthyS u.nickname <;> rfl
  · split
    · rfl
    · split
      · rfl
      · rfl

theorem identityWrites_skip (u : User) (now : String) (i : Nat) (idn : Identity)
    (hw : WHITELISTED_CONNECTIONS.contains idn.connection = false) :
    identityWrites u now i idn = [] := by
  unfold identityWrites
  rw [hw]
  rfl

theorem identityWrites_zero (u : User) (now : String) (idn : Identity)
    (hw : WHITELISTED_CONNECTIONS.contains idn.connection = true) :
    identityWrites u now 0 idn =
      writes_login now idn.connection ++ providerWrites u now idn := by
  unfold identityWrites
  rw [hw]
  rfl

theorem identityWrites_lm (u : User) (now : String) (i : Nat) (idn : Identity)
    (hi : i ≠ 0) :
    ∀ pv ∈ identityWrites u now i idn,
      pathDiverges pv.1 ["login_method", "value"] = true := by
  intro pv hm
  cases hw : WHITELISTED_CONNECTIONS.contains idn.connection with
  | false =>
    rw [identityWrites_skip u now i idn hw] at hm
    cases hm
  | true =>
    have he : identityWrites u now i idn = providerWrites u now idn := by
      unfold identityWrites
      rw [hw, beq_eq_false_iff_ne.mpr hi]
      rfl
    rw [he] at hm
    exact providerWrites_lm u now idn pv hm

theorem applyIdentities_frame (u : User) (now : String) :
    ∀ (l : List Identity) (p : Json) (i : Nat) (q : Json), i ≠ 0 →
      applyIdentities u now p i l = .ok q →
      jsGetPath q ["login_method", "value"] = jsGetPath p ["login_method", "value"] := by
  intro l
  induction l with
  | nil =>
    intro p i q _ h
    injection h with h
    rw [h]
  | cons idn rest ih =>
    intro p i q hi h
    obtain ⟨p', h1, h2⟩ := bindOk h
    have hf := writeAll_frame _ _ _ (identityWrites_lm u now i idn hi) h1
    have hr := ih p' (i + 1) q (by omega) h2
    rw [hr, hf]

/- ## Landing a two-step write -/

theorem jsGetPath_two {p : Json} {k1 k2 : String} {x : Json}
    (h : jsGetPath p [k1, k2] = some x) :
    ∃ cfs, jsGet p k1 = some (.obj cfs) ∧ getF cfs k2 = some x := by
  simp only [jsGetPath] at h
  cases hg : jsGet p k1 with
  | none => rw [hg] at h; exact Option.noConfusion h
  | some c =>
    rw [hg] at h
    cases c with
    | obj cfs =>
      refine ⟨cfs, rfl, ?_⟩
      simp only [jsGet] at h
      cases hg2 : getF cfs k2 with
      | none => rw [hg2] at h; exact Option.noConfusion h
      | some y => rw [hg2] at h; exact h
    | null => exact Option.noConfusion h
    | bool b => exact Option.noConfusion h
    | num n => exact Option.noConfusion h
    | str s => exact Option.noConfusion h
    | arr xs => exact Option.noConfusion h

theorem jsSetPath_get2 {p q v : Json} {k1 k2 : String} {cfs : List (String × Json)}
    (hc : jsGet p k1 = some (.obj cfs))
    (h : jsSetPath p [k1, k2] v = .ok q) :
    jsGetPath q [k1, k2] = some v := by
  cases p with
  | obj fs =>
    simp only [jsGet] at hc
    simp only [jsSetPath, hc] at h
    obtain ⟨c', hc', hq⟩ := mapOk h
    injection hc' with hc'
    subst hq
    simp only [jsGetPath, jsGet, getF_setF_self]
    rw [← hc']
    simp [getF_setF_self]
  | null => exact Option.noConfusion hc
  | bool b => exact Option.noConfusion hc
  | num n => exact Option.noConfusion hc
  | str s => exact Option.noConfusion hc
  | arr xs => exact Option.noConfusion hc

/-- Performing the `login_method` writes (lines 140-142) on any working profile
whose `login_method.value` reads as the skeleton's `null` lands the connection
name in `login_method.value`. -/
theorem writes_login_sets {p q : Json} (now conn : String)
    (hlm : jsGetPath p ["login_method", "value"] = some Json.null)
    (h : writeAll p (writes_login now conn) = .ok q) :
    jsGetPath q ["login_method", "value"] = some (.str conn) := by
  unfold writes_login at h
  obtain ⟨pA, hA, h⟩ := bindOk h
  obtain ⟨pB, hB, h⟩ := bindOk h
  obtain ⟨pC, hC, h⟩ := bindOk h
  injection h with h
  subst h
  have e1 : jsGetPath pA ["login_method", "value"] = some Json.null := by
    rw [jsSetPath_frame _ _ _ _ (by rfl) hA, hlm]
  have e2 : jsGetPath pB ["login_method", "value"] = some Json.null := by
    rw [jsSetPath_frame _ _ _ _ (by rfl) hB, e1]
  obtain ⟨cfs, hobj, _⟩ := jsGetPath_two e2
  exact jsSetPath_get2 hobj hC

theorem nullProfile_lm :
    jsGetPath nullProfile ["login_method", "value"] = some Json.null := rfl

theorem topWritesList_diverge (u : User) (userId now : String) :
    ∀ pv ∈ topWritesList u userId now,
      pathDiverges pv.1 ["login_method", "value"] = true := by
  apply allDiverge_mem
  rfl

/- ## Claim C4 -/

/-- **C4** (corrected).  The claim says the *first whitelisted* entry, at
whatever position, sets `login_method`; in the code the `login_method` block
is guarded by `i === 0`, so `login_method` is set iff the entry at position 0
is whitelisted (to that entry's connection), and a whitelisted entry at any
later position never sets it; non-whitelisted entries are skipped for mapping
but the input list is untouched (the user record is read-only here). -/
theorem c4_login_method_position (u : User) (userId now : String) (q : Json)
    (h : buildProfile nullProfile u userId now = .ok q) :
    jsGetPath q ["login_method", "value"] =
      (match u.identities with
       | [] => some Json.null
       | idn :: _ =>
         if WHITELISTED_CONNECTIONS.contains idn.connection then some (.str idn.connection)
         else some Json.null) := by
  unfold buildProfile at h
  obtain ⟨p0, h0, h1⟩ := bindOk h
  have hp0 : jsGetPath p0 ["login_method", "value"] = some Json.null := by
    rw [writeAll_frame _ _ _ (topWritesList_diverge u userId now) h0, nullProfile_lm]
  cases hl : u.identities with
  | nil =>
    rw [hl] at h1
    have e : applyIdentities u now p0 0 ([] : List Identity) = .ok p0 := rfl
    have hq : p0 = q := Except.ok.inj (e.symm.trans h1)
    rw [← hq]
    exact hp0
  | cons idn rest =>
    rw [hl] at h1
    obtain ⟨p1, h2, h3⟩ := bindOk h1
    have hframe := applyIdentities_frame u now rest p1 1 q (by omega) h3
    cases hw : WHITELISTED_CONNECTIONS.contains idn.connection with
    | true =>
      rw [identityWrites_zero u now idn hw, writeAll_append] at h2
      obtain ⟨pa, h4, h5⟩ := bindOk h2
      have hla := writes_login_sets now idn.connection hp0 h4
      have hfr2 := writeAll_frame _ _ _ (providerWrites_lm u now idn) h5
      rw [hframe, hfr2, hla]
      show some (Json.str idn.connection) =
        if WHITELISTED_CONNECTIONS.contains idn.connection then some (.str idn.connection)
        else some Json.null
      rw [hw]
      rfl
    | false =>
      rw [identityWrites_skip u now 0 idn hw] at h2
      have e : writeAll p0 ([] : List (List String × Json)) = .ok p0 := rfl
      have hq : p0 = p1 := Except.ok.inj (e.symm.trans h2)
      rw [hframe, ← hq]
      show jsGetPath p0 ["login_method", "value"] =
        if WHITELISTED_CONNECTIONS.contains idn.connection then some (.str idn.connection)
        else some Json.null
      rw [hw, hp0]
      rfl

/-- A user whose first linked identity is not whitelisted (`ad`) and whose
second is whitelisted (`github`). -/
def uMixC4 : User :=
  { user_id := "ad|X", email := "x@y.example", given_name := none, name := none,
    family_name := none, nickname := none, user_metadata := none,
    identities := [ { connection := "ad", provider := "ad", user_id := .str "X",
                      profileData := none },
                    { connection := "github", provider := "github", user_id := .num 5,
                      profileData := none } ] }

/-- **C4 counterexample.**  With identities `[ad, github]` the first
*whitelisted* entry is the GitHub one at position 1, so the claim as stated
predicts `login_method = "github"`; the code leaves `login_method` at the
skeleton's `null` because the entry at position 0 is not whitelisted. -/
theorem c4_counterexample :
    WHITELISTED_CONNECTIONS.contains "ad" = false ∧
    WHITELISTED_CONNECTIONS.contains "github" = true ∧
    (match buildProfile nullProfile uMixC4 "ad|X" "NOW" with
     | .ok q => jsGetPath q ["login_method", "value"]
     | .error _ => none) = some Json.null ∧
    some Json.null ≠ some (Json.str "github") :=
  ⟨rfl, rfl, rfl, fun hc => Json.noConfusion (Option.some.inj hc)⟩

/-- A user with identities in the order `[google-oauth2, github]`, both
whitelisted. -/
def uGoogleGh : User :=
  { user_id := "google-oauth2|1", email := "g@y.example", given_name := some "G",
    name := none, family_name := none, nickname := some "octo", user_metadata := none,
    identities := [ { connection := "google-oauth2", provider := "google-oauth2",
                      user_id := .str "g1", profileData := none },
                    { connection := "github", provider := "github", user_id := .num 5,
                      profileData := none } ] }

/-- The profile built for `uGoogleGh`. -/
def builtGoogleGh : Json :=
  match buildProfile nullProfile uGoogleGh "google-oauth2|1" "NOW" with
  | .ok q => q
  | .error _ => .null

/-- **C4 witness**: at the concrete input `[google-oauth2, github]` the entry
at position 0 is whitelisted and `login_method` is its connection name. -/
theorem c4_login_method_position_witness :
    jsGetPath builtGoogleGh ["login_method", "value"] = some (.str "google-oauth2") :=
  c4_login_method_position uGoogleGh "google-oauth2|1" "NOW" builtGoogleGh rfl

/- ## Evaluating a write sequence at one path

`writeAll_eval` computes the value a sequence of writes leaves at a path `P`:
provided every write path either equals `P` or diverges from it, the result at
`P` is the payload of the last write to `P` (or the original value when `P` is
never written), as long as `P` is writable (`canLand`) in the starting
profile. -/

/-- Whether the first path is a proper prefix of the second. -/
def strictPrefixB : List String → List String → Bool
  | [], _ :: _ => true
  | [], [] => false
  | _ :: _, [] => false
  | p :: ps, q :: qs => p == q && strictPrefixB ps qs

/-- Whether `jsSetPath` at this path lands in an object all the way down
(so the write is neither a throw nor a silent no-op). -/
def canLand : Json → List String → Bool
  | _, [] => false
  | .obj _, [_] => true
  | .obj fs, k :: k2 :: ks =>
    match getF fs k with
    | some c => canLand c (k2 :: ks)
    | none => false
  | _, _ :: _ => false

/-- Whether two paths are equal. -/
def eqPathB : List String → List String → Bool
  | [], [] => true
  | p :: ps, q :: qs => p == q && eqPathB ps qs
  | _, _ => false

theorem eqPathB_eq : ∀ {P Q : List String}, eqPathB P Q = true → P = Q := by
  intro P
  induction P with
  | nil =>
    intro Q h
    cases Q with
    | nil => rfl
    | cons q qs => simp [eqPathB] at h
  | cons p ps ih =>
    intro Q h
    cases Q with
    | nil => simp [eqPathB] at h
    | cons q qs =>
      simp only [eqPathB, Bool.and_eq_true, beq_iff_eq] at h
      rw [h.1, ih h.2]

theorem pathDiverges_not_strictPrefix :
    ∀ {P Q : List String}, pathDiverges P Q = true → strictPrefixB P Q = false := by
  intro P
  induction P with
  | nil => intro Q h; simp [pathDiverges] at h
  | cons p ps ih =>
    intro Q h
    cases Q with
    | nil => simp [pathDiverges] at h
    | cons q qs =>
      by_cases hpq : p = q
      · subst hpq
        have h' : pathDiverges ps qs = true := by simpa [pathDiverges] using h
        simp [strictPrefixB, ih h']
      · simp [strictPrefixB, hpq]

theorem jsSetPath_lands {v : Json} :
    ∀ (P : List String) (p q : Json),
      canLand p P = true → jsSetPath p P v = .ok q → jsGetPath q P = some v := by
  intro P
  induction P with
  | nil => intro p q hc; simp [canLand] at hc
  | cons k ks ih =>
    intro p q hc hset
    cases p with
    | obj fs =>
      cases ks with
      | nil =>
        injection hset with hset
        rw [← hset]
        simp [jsGetPath, jsGet, getF_setF_self]
      | cons k2 ks' =>
        simp only [canLand] at hc
        cases hg : getF fs k with
        | none => rw [hg] at hc; exact Bool.noConfusion hc
        | some c =>
          rw [hg] at hc
          simp only [jsSetPath] at hset
          rw [hg] at hset
          obtain ⟨c', hc', hq⟩ := mapOk hset
          subst hq
          simp only [jsGetPath, jsGet, getF_setF_self]
          exact ih c c' hc hc'
    | null => simp [canLand] at hc
    | bool b => simp [canLand] at hc
    | num n => simp [canLand] at hc
    | str s => simp [canLand] at hc
    | arr xs => simp [canLand] at hc

theorem canLand_preserved {v : Json} :
    ∀ (P Pw : List String) (p q : Json),
      strictPrefixB Pw P = false →
      canLand p P = true →
      jsSetPath p Pw v = .ok q →
      canLand q P = true := by
  intro P
  induction P with
  | nil => intro Pw p q _ hc; simp [canLand] at hc
  | cons k ks ih =>
    intro Pw p q hsp hc hset
    cases p with
    | obj fs =>
      cases Pw with
      | nil => simp [strictPrefixB] at hsp
      | cons kw kws =>
        cases kws with
        | nil =>
          injection hset with hset
          subst hset
          by_cases hkk : kw = k
          · subst hkk
            have hks : ks = [] := by
              cases ks with
              | nil => rfl
              | cons a b => simp [strictPrefixB] at hsp
            subst hks
            simp [canLand]
          · cases ks with
            | nil => simp [canLand]
            | cons k2 ks' =>
              simp only [canLand] at hc ⊢
              rw [getF_setF_ne fs kw k v (fun hc' => hkk hc'.symm)]
              exact hc
        | cons kw2 kws' =>
          simp only [jsSetPath] at hset
          cases hg : getF fs kw with
          | none => rw [hg] at hset; exact Except.noConfusion hset
          | some c =>
            rw [hg] at hset
            obtain ⟨c', hc', hq⟩ := mapOk hset
            subst hq
            by_cases hkk : kw = k
            · subst hkk
              cases ks with
              | nil => simp [canLand]
              | cons k2 ks' =>
                simp only [canLand] at hc ⊢
                rw [hg] at hc
                rw [getF_setF_self]
                have hsp' : strictPrefixB (kw2 :: kws') (k2 :: ks') = false := by
                  simpa [strictPrefixB] using hsp
                exact ih (kw2 :: kws') c c' hsp' hc hc'
            · cases ks with
              | nil => simp [canLand]
              | cons k2 ks' =>
                simp only [canLand] at hc ⊢
                rw [getF_setF_ne fs kw k c' (fun hc' => hkk hc'.symm)]
                exact hc
    | null =>
      cases Pw with
      | nil => simp [strictPrefixB] at hsp
      | cons kw kws => exact absurd hc (by simp [canLand])
    | bool b => exact absurd hc (by simp [canLand])
    | num n => exact absurd hc (by simp [canLand])
    | str s => exact absurd hc (by simp [canLand])
    | arr xs => exact absurd hc (by simp [canLand])

/-- The payload of the last write to path `P` in a write list, if any. -/
def lastValue (P : List String) : List (List String × Json) → Option Json
  | [] => none
  | (pw, v) :: rest =>
    match lastValue P rest with
    | some w => some w
    | none => if eqPathB pw P then some v else none

/-- Every write path either equals `P` or diverges from it. -/
def writeCond (P : List String) (l : List (List String × Json)) : Bool :=
  l.all (fun pv => eqPathB pv.1 P || pathDiverges pv.1 P)

theorem strictPrefixB_self : ∀ P : List String, strictPrefixB P P = false := by
  intro P
  induction P with
  | nil => rfl
  | cons p ps ih => simp [strictPrefixB, ih]

theorem writeAll_eval {P : List String} :
    ∀ (l : List (List String × Json)) (p q : Json),
      writeCond P l = true →
      canLand p P = true →
      writeAll p l = .ok q →
      jsGetPath q P =
        (match lastValue P l with
         | some w => some w
         | none => jsGetPath p P) := by
  intro l
  induction l with
  | nil =>
    intro p q _ _ h
    injection h with h
    subst h
    rfl
  | cons hd tl ih =>
    intro p q hcond hc h
    obtain ⟨pw, v⟩ := hd
    obtain ⟨p', h1, h2⟩ := bindOk h
    rw [writeCond, List.all_cons, Bool.and_eq_true] at hcond
    have hcond' : writeCond P tl = true := hcond.2
    cases he : eqPathB pw P with
    | true =>
      have hpe : pw = P := eqPathB_eq he
      subst hpe
      have hland := jsSetPath_lands pw p p' hc h1
      have hc' : canLand p' pw = true :=
        canLand_preserved pw pw p p' (strictPrefixB_self pw) hc h1
      rw [ih p' q hcond' hc' h2]
      simp only [lastValue]
      rw [he]
      cases lastValue pw tl with
      | some w => rfl
      | none => exact hland
    | false =>
      have hdiv : pathDiverges pw P = true := by
        rcases Bool.or_eq_true_iff.mp hcond.1 with h' | h'
        · rw [he] at h'
          exact Bool.noConfusion h'
        · exact h'
      have hframe := jsSetPath_frame pw p p' P hdiv h1
      have hc' : canLand p' P = true :=
        canLand_preserved P pw p p' (pathDiverges_not_strictPrefix hdiv) hc h1
      rw [ih p' q hcond' hc' h2]
      simp only [lastValue]
      rw [he]
      cases lastValue P tl with
      | some w => rfl
      | none => exact hframe

/- ## Claim C5 -/

/-- A whitelisted GitHub linked identity with no provider profile data. -/
def ghId : Identity :=
  { connection := "github", provider := "github", user_id := .num 5, profileData := none }

/-- A user with one whitelisted GitHub identity and a nickname, so that the
provider-qualified username slot (lines 151-155) is written. -/
def uGhC5 : User :=
  { user_id := "github|5", email := "octo@example.org", given_name := none,
    name := some "Octo Cat", family_name := none, nickname := some "octocat",
    user_metadata := none, identities := [ghId] }

/-- The complete write sequence the builder performs for `uGhC5`. -/
def c5writes (userId now : String) : List (List String × Json) :=
  topWritesList uGhC5 userId now ++ identityWrites uGhC5 now 0 ghId

/-- **C5** (corrected).  Every attribute the builder writes gets
`signature.publisher.name = PUBLISHER_NAME`, and every one of them *except the
`usernames` slot* also gets `metadata.last_modified` stamped to the current
instant; the `usernames` write (lines 151-155) sets `metadata.display`,
`signature.publisher.name` and `values` but leaves `metadata.last_modified`
at the skeleton's `null`. -/
theorem c5_stamp_exception (userId now : String) (q : Json)
    (h : buildProfile nullProfile uGhC5 userId now = .ok q) :
    (jsGetPath q ["active", "metadata", "last_modified"] = some (.str now) ∧
     jsGetPath q ["active", "signature", "publisher", "name"] = some (.str PUBLISHER_NAME)) ∧
    (jsGetPath q ["first_name", "metadata", "last_modified"] = some (.str now) ∧
     jsGetPath q ["first_name", "signature", "publisher", "name"] = some (.str PUBLISHER_NAME)) ∧
    (jsGetPath q ["last_name", "metadata", "last_modified"] = some (.str now) ∧
     jsGetPath q ["last_name", "signature", "publisher", "name"] = some (.str PUBLISHER_NAME)) ∧
    (jsGetPath q ["primary_email", "metadata", "last_modified"] = some (.str now) ∧
     jsGetPath q ["primary_email", "signature", "publisher", "name"] = some (.str PUBLISHER_NAME)) ∧
    (jsGetPath q ["user_id", "metadata", "last_modified"] = some (.str now) ∧
     jsGetPath q ["user_id", "signature", "publisher", "name"] = some (.str PUBLISHER_NAME)) ∧
    (jsGetPath q ["login_method", "metadata", "last_modified"] = some (.str now) ∧
     jsGetPath q ["login_method", "signature", "publisher", "name"] = some (.str PUBLISHER_NAME)) ∧
    (jsGetPath q ["identities", "github_id_v3", "metadata", "last_modified"] = some (.str now) ∧
     jsGetPath q ["identities", "github_id_v3", "signature", "publisher", "name"] =
       some (.str PUBLISHER_NAME)) ∧
    (jsGetPath q ["usernames", "signature", "publisher", "name"] = some (.str PUBLISHER_NAME) ∧
     jsGetPath q ["usernames", "metadata", "display"] = some (.str "private") ∧
     jsGetPath q ["usernames", "values"] = some (.obj [("HACK#GITHUB", .str "octocat")]) ∧
     jsGetPath q ["usernames", "metadata", "last_modified"] = some Json.null) := by
  unfold buildProfile at h
  obtain ⟨p0, h0, h1⟩ := bindOk h
  obtain ⟨p1, h2, h3⟩ := bindOk h1
  have e3 : applyIdentities uGhC5 now p1 (0 + 1) ([] : List Identity) = .ok p1 := rfl
  have hq : p1 = q := Except.ok.inj (e3.symm.trans h3)
  subst hq
  have hAll : writeAll nullProfile (c5writes userId now) = .ok p1 := by
    unfold c5writes
    rw [writeAll_append, h0]
    exact h2
  refine ⟨⟨?_, ?_⟩, ⟨?_, ?_⟩, ⟨?_, ?_⟩, ⟨?_, ?_⟩, ⟨?_, ?_⟩, ⟨?_, ?_⟩, ⟨?_, ?_⟩,
    ?_, ?_, ?_, ?_⟩ <;>
    (refine (writeAll_eval (c5writes userId now) nullProfile p1 ?_ ?_ hAll).trans rfl <;> rfl)

/-- **C5 counterexample.**  The `usernames` attribute is written (its publisher
name is stamped and its `values` is set) yet its `metadata.last_modified` is
*not* set to the current instant — it stays at the skeleton's `null` — so the
claim fails for this attribute. -/
theorem c5_counterexample :
    (match buildProfile nullProfile uGhC5 "github|5" "2021-01-01T00:00:00.000Z" with
     | .ok q => jsGetPath q ["usernames", "signature", "publisher", "name"]
     | .error _ => none) = some (.str "access_provider") ∧
    (match buildProfile nullProfile uGhC5 "github|5" "2021-01-01T00:00:00.000Z" with
     | .ok q => jsGetPath q ["usernames", "metadata", "last_modified"]
     | .error _ => none) = some Json.null ∧
    some Json.null ≠ some (Json.str "2021-01-01T00:00:00.000Z") :=
  ⟨rfl, rfl, fun hc => Json.noConfusion (Option.some.inj hc)⟩

/-- The profile built for `uGhC5` at a concrete instant. -/
def c5builtW : Json :=
  match buildProfile nullProfile uGhC5 "github|5" "2021-06-01T00:00:00.000Z" with
  | .ok q => q
  | .error _ => .null

/-- **C5 witness**: the amended statement evaluated at a concrete instant. -/
theorem c5_stamp_exception_witness :
    jsGetPath c5builtW ["usernames", "metadata", "last_modified"] = some Json.null ∧
    jsGetPath c5builtW ["active", "metadata", "last_modified"] =
      some (.str "2021-06-01T00:00:00.000Z") :=
  ⟨(c5_stamp_exception "github|5" "2021-06-01T00:00:00.000Z" c5builtW rfl).2.2.2.2.2.2.2.2.2.2,
   (c5_stamp_exception "github|5" "2021-06-01T00:00:00.000Z" c5builtW rfl).1.1⟩

/- ## Lemmas about the signer -/

theorem getF_delF_ne : ∀ (fs : List (String × Json)) (k k' : String), k' ≠ k →
    getF (delF fs k) k' = getF fs k' := by
  intro fs
  induction fs with
  | nil => intro k k' _; rfl
  | cons hd tl ih =>
    intro k k' hne
    obtain ⟨k0, v0⟩ := hd
    simp only [delF]
    by_cases h0 : k0 = k
    · rw [if_pos h0]
      have : ¬ (k0 = k') := by
        rw [h0]
        exact fun hc => hne hc.symm
      simp [getF, this]
    · rw [if_neg h0]
      simp only [getF]
      by_cases h1 : k0 = k'
      · simp [h1]
      · simp [h1, ih k k' hne]

theorem getF_append : ∀ (l1 l2 : List (String × Json)) (k : String),
    getF (l1 ++ l2) k =
      (match getF l1 k with
       | some v => some v
       | none => getF l2 k) := by
  intro l1
  induction l1 with
  | nil => intro l2 k; rfl
  | cons hd tl ih =>
    intro l2 k
    obtain ⟨k0, v0⟩ := hd
    simp only [List.cons_append, getF]
    by_cases h0 : k0 = k
    · simp [h0]
    · simp [h0, ih l2 k]

/-- The keys (in order) of an object's field list. -/
def keysOf : List (String × Json) → List String :=
  List.map Prod.fst

theorem signFields_keys (sig : Json → String) :
    ∀ (l l' : List (String × Json)), signFields sig l = .ok l' → keysOf l' = keysOf l := by
  intro l
  induction l with
  | nil =>
    intro l' h
    injection h with h
    rw [← h]
  | cons hd tl ih =>
    intro l' h
    obtain ⟨k, v⟩ := hd
    cases v with
    | null => exact Except.noConfusion h
    | obj fs =>
      simp only [signFields] at h
      split at h
      · split at h
        · exact Except.noConfusion h
        · obtain ⟨r, hr, hl'⟩ := mapOk h
          subst hl'
          simpa [keysOf] using ih r hr
      · split at h
        · exact Except.noConfusion h
        · obtain ⟨r, hr, hl'⟩ := mapOk h
          subst hl'
          simpa [keysOf] using ih r hr
    | bool b =>
      obtain ⟨r, hr, hl'⟩ := mapOk h
      subst hl'
      simpa [keysOf] using ih r hr
    | num n =>
      obtain ⟨r, hr, hl'⟩ := mapOk h
      subst hl'
      simpa [keysOf] using ih r hr
    | str s =>
      obtain ⟨r, hr, hl'⟩ := mapOk h
      subst hl'
      simpa [keysOf] using ih r hr
    | arr xs =>
      obtain ⟨r, hr, hl'⟩ := mapOk h
      subst hl'
      simpa [keysOf] using ih r hr

/-- The publisher name carried by an attribute's signature envelope, compared
to this system's publisher identity (`signature.publisher.name ===
PUBLISHER_NAME`). -/
def pubNameIs (attr : Json) : Bool :=
  match jsGetPath attr ["signature", "publisher", "name"] with
  | some (.str nm) => nm == PUBLISHER_NAME
  | _ => false

/-- Neither `value` nor `values` is an explicit `null`. -/
def valuesNonNull (attr : Json) : Bool :=
  !(isExplicitNull (jsGet attr "value")) && !(isExplicitNull (jsGet attr "values"))

theorem signAttribute_eq (sig : Json → String) (fs ps pub : List (String × Json))
    (hsig : getF fs "signature" = some (.obj ps))
    (hpub : getF ps "publisher" = some (.obj pub)) :
    signAttribute sig (.obj fs) =
      (if pubNameIs (.obj fs) = false then .ok (.obj fs)
       else if isExplicitNull (getF fs "value") then .ok (.obj fs)
       else if isExplicitNull (getF fs "values") then .ok (.obj fs)
       else .ok (freshSigned sig (.obj fs))) := by
  have htr : truthyField (.obj fs) "signature" = true := by
    simp [truthyField, jsGet, hsig, truthy]
  have hnm : pubNameIs (.obj fs) =
      (match getF pub "name" with
       | some (.str nm) => nm == PUBLISHER_NAME
       | _ => false) := by
    simp only [pubNameIs, jsGetPath, jsGet, hsig, hpub]
    cases getF pub "name" with
    | none => rfl
    | some v => cases v <;> rfl
  simp only [signAttribute, htr, jsGet, hsig, hpub, hnm]
  rfl

/- ## Claim C6 -/

/-- **C6** (confirmed).  For a named child that carries a signature sub-record
(`signature` an object with a `publisher` record): `signAll` dispatches it to
`signAttribute`; the child is freshly signed iff `signature.publisher.name`
equals this system's publisher identity and neither `value` nor `values` is
`null`, and is returned untouched otherwise.  A plain-object child without a
truthy `signature` field is a container: `signAll` recurses into it and never
wraps it in a signature itself — its key set is preserved exactly. -/
theorem c6_sign_leaf_iff (sig : Json → String) (fs ps pub : List (String × Json))
    (k : String) (rest : List (String × Json))
    (hsig : getF fs "signature" = some (.obj ps))
    (hpub : getF ps "publisher" = some (.obj pub)) :
    (signFields sig ((k, .obj fs) :: rest) =
      (match signAttribute sig (.obj fs) with
       | .error e => .error e
       | .ok v' => (signFields sig rest).map (fun r => (k, v') :: r))) ∧
    (pubNameIs (.obj fs) = true → valuesNonNull (.obj fs) = true →
      signAttribute sig (.obj fs) = .ok (freshSigned sig (.obj fs))) ∧
    (¬ (pubNameIs (.obj fs) = true ∧ valuesNonNull (.obj fs) = true) →
      signAttribute sig (.obj fs) = .ok (.obj fs)) ∧
    (∀ (gfs : List (String × Json)) (k2 : String) (rest2 : List (String × Json)),
      truthyField (.obj gfs) "signature" = false →
      signFields sig ((k2, .obj gfs) :: rest2) =
        (match signAll sig (.obj gfs) with
         | .error e => .error e
         | .ok v' => (signFields sig rest2).map (fun r => (k2, v') :: r))) ∧
    (∀ (gfs gfs' : List (String × Json)), signAll sig (.obj gfs) = .ok (.obj gfs') →
      keysOf gfs' = keysOf gfs) := by
  have htr : truthyField (.obj fs) "signature" = true := by
    simp [truthyField, jsGet, hsig, truthy]
  refine ⟨?_, ?_, ?_, ?_, ?_⟩
  · simp [signFields, htr]
  · intro hnm hval
    have h1 : isExplicitNull (jsGet (Json.obj fs) "value") = false ∧
        isExplicitNull (jsGet (Json.obj fs) "values") = false := by
      have := hval
      simp only [valuesNonNull, Bool.and_eq_true, Bool.not_eq_true'] at this
      exact this
    rw [signAttribute_eq sig fs ps pub hsig hpub]
    simp only [jsGet] at h1
    simp [hnm, h1.1, h1.2]
  · intro hne
    rw [signAttribute_eq sig fs ps pub hsig hpub]
    cases hp : pubNameIs (.obj fs) with
    | false => simp
    | true =>
      have hv : valuesNonNull (.obj fs) = false := by
        cases hvv : valuesNonNull (.obj fs) with
        | true => exact absurd ⟨hp, hvv⟩ hne
        | false => rfl
      simp only [valuesNonNull, jsGet, Bool.and_eq_false_iff, Bool.not_eq_false'] at hv
      rcases hv with h1 | h1
      · simp [h1]
      · cases h0 : isExplicitNull (getF fs "value") with
        | true => simp [h0]
        | false => simp [h0, h1]
  · intro gfs k2 rest2 hf
    simp [signFields, hf]
  · intro gfs gfs' h
    simp only [signAll] at h
    obtain ⟨l', hl', heq⟩ := mapOk h
    injection heq with heq
    rw [← heq]
    exact signFields_keys sig gfs l' hl'

/-- A leaf attribute owned by this publisher, with a string value. -/
def c6fs : List (String × Json) :=
  [ ("value", .str "hello"),
    ("signature", .obj [ ("publisher", .obj [ ("name", .str "access_provider") ]) ]) ]

/-- **C6 witness**: at a concrete publisher-owned leaf with a non-null value,
`signAttribute` produces the freshly signed attribute. -/
theorem c6_sign_leaf_iff_witness :
    signAttribute (fun _ => "SIG") (.obj c6fs) = .ok (freshSigned (fun _ => "SIG") (.obj c6fs)) :=
  (c6_sign_leaf_iff (fun _ => "SIG") c6fs
      [("publisher", .obj [("name", .str "access_provider")])] [("name", .str "access_provider")]
      "attr" [] rfl rfl).2.1 rfl rfl

/- ## Claim C7 -/

/-- **C7** (corrected).  A signed attribute whose scalar value is a *non-zero*
number is stored as its decimal string representation; the number `0` is falsy,
so the coercion guard `attr.value && typeof attr.value === "number"` skips it
and the signed attribute keeps the number `0` unchanged. -/
theorem c7_numeric_coercion (sig : Json → String) (fs ps pub : List (String × Json)) (n : Int)
    (hsig : getF fs "signature" = some (.obj ps))
    (hpub : getF ps "publisher" = some (.obj pub))
    (hnm : pubNameIs (.obj fs) = true)
    (hval : getF fs "value" = some (.num n))
    (hvals : isExplicitNull (getF fs "values") = false) :
    (n ≠ 0 → ∃ r, signAttribute sig (.obj fs) = .ok r ∧
      jsGet r "value" = some (.str (toString n))) ∧
    (n = 0 → ∃ r, signAttribute sig (.obj fs) = .ok r ∧
      jsGet r "value" = some (.num 0)) := by
  have hsgn := signAttribute_eq sig fs ps pub hsig hpub
  have hv0 : isExplicitNull (getF fs "value") = false := by
    rw [hval]
    rfl
  have hsign : signAttribute sig (.obj fs) = .ok (freshSigned sig (.obj fs)) := by
    rw [hsgn]
    simp [hnm, hv0, hvals]
  constructor
  · intro hn
    refine ⟨freshSigned sig (.obj fs), hsign, ?_⟩
    have hn' : (n != 0) = true := by simpa using hn
    have hco : coerceValue (.obj fs) = .obj (setF fs "value" (.str (toString n))) := by
      simp [coerceValue, hval, hn']
    have hfr : freshSigned sig (.obj fs) =
        .obj (delF (setF fs "value" (.str (toString n))) "signature" ++
          [("signature",
            newSignature (sig (.obj (delF (setF fs "value" (.str (toString n))) "signature"))))]) := by
      simp [freshSigned, hco]
    rw [hfr]
    show getF (delF (setF fs "value" (.str (toString n))) "signature" ++
      [("signature",
        newSignature (sig (.obj (delF (setF fs "value" (.str (toString n))) "signature"))))])
      "value" = some (.str (toString n))
    rw [getF_append, getF_delF_ne _ _ _ (by decide), getF_setF_self]
  · intro hn
    subst hn
    refine ⟨freshSigned sig (.obj fs), hsign, ?_⟩
    have hco : coerceValue (.obj fs) = .obj fs := by
      simp [coerceValue, hval]
    have hfr : freshSigned sig (.obj fs) =
        .obj (delF fs "signature" ++
          [("signature", newSignature (sig (.obj (delF fs "signature"))))]) := by
      simp [freshSigned, hco]
    rw [hfr]
    show getF (delF fs "signature" ++
      [("signature", newSignature (sig (.obj (delF fs "signature"))))]) "value" =
      some (.num 0)
    rw [getF_append, getF_delF_ne _ _ _ (by decide), hval]

/-- A publisher-owned leaf whose value is the number `0`. -/
def attrZero : Json :=
  .obj [ ("value", .num 0),
         ("signature", .obj [ ("publisher", .obj [ ("name", .str "access_provider") ]) ]) ]

/-- **C7 counterexample.**  The attribute with value `0` *is* signed, yet its
stored value stays the number `0` rather than the string `"0"`: the coercion is
guarded by JavaScript truthiness of the value, and `0` is falsy. -/
theorem c7_counterexample :
    signAttribute (fun _ => "SIG") attrZero = .ok (freshSigned (fun _ => "SIG") attrZero) ∧
    jsGet (freshSigned (fun _ => "SIG") attrZero) "value" = some (.num 0) ∧
    some (Json.num 0) ≠ some (Json.str "0") :=
  ⟨rfl, rfl, fun hc => Json.noConfusion (Option.some.inj hc)⟩

/-- A publisher-owned leaf whose value is the number `42`. -/
def attr42fs : List (String × Json) :=
  [ ("value", .num 42),
    ("signature", .obj [ ("publisher", .obj [ ("name", .str "access_provider") ]) ]) ]

/-- **C7 witness**: the non-zero value `42` is stored as the string `"42"`. -/
theorem c7_numeric_coercion_witness :
    ∃ r, signAttribute (fun _ => "SIG") (.obj attr42fs) = .ok r ∧
      jsGet r "value" = some (.str "42") :=
  (c7_numeric_coercion (fun _ => "SIG") attr42fs
      [("publisher", .obj [("name", .str "access_provider")])]
      [("name", .str "access_provider")] 42 rfl rfl rfl rfl rfl).1 (by decide)

/- ## Concrete invocation fixtures -/

/-- A complete, correctly-shaped configuration (bare-host audience,
unversioned store URL). -/
def cfgFull : Config :=
  { changeapi_auth0_private_key := some "S2V5",
    changeapi_null_profile := some "e30=",
    changeapi_url := some "https://change.api.sso.example.com",
    personapi_client_id := some "client-id",
    personapi_client_secret := some "client-secret",
    personapi_url := some "https://person.api.sso.example.com",
    personapi_audience := some "api.sso.example.com",
    personapi_oauth_url := some "https://auth.example.auth0.com/oauth/token" }

/-- A minimal user on a whitelisted connection with no linked identities. -/
def uPlain : User :=
  { user_id := "github|7", email := "u@example.org", given_name := none, name := none,
    family_name := none, nickname := none, user_metadata := none, identities := [] }

/-- A context whose connection strategy is whitelisted. -/
def ctxGh : Context :=
  { connectionStrategy := "github", primaryUser := none, primaryUserMetadata := none }

/-- An empty bearer-token cache. -/
def gEmpty : Globals := ⟨none, none⟩

/-- An environment in which every external call succeeds. -/
def envHappy : Env :=
  { now := 5000000, nowIso := "2021-06-01T00:00:00.000Z",
    oauthResult := .ok (.obj [("access_token", .str "tok")]),
    personResult := .ok (.obj []),
    changeResult := .ok (.obj [("status_code", .num 200)]),
    decodedSkeleton := .ok nullProfile,
    sigFun := fun _ => "SIG",
    metadataUpdateOk := true }

/- ## Claim C9 -/

/-- The representative skeleton with an extra `null`-valued top-level child. -/
def skelWithNull : Json :=
  match nullProfile with
  | .obj fs => .obj (fs ++ [("flags", Json.null)])
  | j => j

/-- The happy-path environment, but the decoded skeleton contains a `null`
top-level child, so `signAll` throws. -/
def envNullChild : Env := { envHappy with decodedSkeleton := .ok skelWithNull }

/-- **C9** (confirmed).  In `signAll` a named child that is not a plain object
is neither signed nor recursed into: strings, numbers, booleans and arrays are
passed through untouched (in particular an `additional`-signatures array is
never visited, whatever entries `xs` it holds), while a `null` child makes
`attr.constructor` throw a `TypeError`.  In a full run where the built profile
contains such a `null` child the throw is caught by the orchestration chain:
the rule still ends in `callback(null, user, context)` (one `callbackInvoked
none`, nothing thrown to the caller, and no submission attempted). -/
theorem c9_signall_shape_dispatch :
    (∀ (sig : Json → String) (k s : String) (rest : List (String × Json)),
      signFields sig ((k, .str s) :: rest) =
        (signFields sig rest).map (fun r => (k, .str s) :: r)) ∧
    (∀ (sig : Json → String) (k : String) (n : Int) (rest : List (String × Json)),
      signFields sig ((k, .num n) :: rest) =
        (signFields sig rest).map (fun r => (k, .num n) :: r)) ∧
    (∀ (sig : Json → String) (k : String) (b : Bool) (rest : List (String × Json)),
      signFields sig ((k, .bool b) :: rest) =
        (signFields sig rest).map (fun r => (k, .bool b) :: r)) ∧
    (∀ (sig : Json → String) (k : String) (xs : List Json) (rest : List (String × Json)),
      signFields sig ((k, .arr xs) :: rest) =
        (signFields sig rest).map (fun r => (k, .arr xs) :: r)) ∧
    (∀ (sig : Json → String) (k : String) (rest : List (String × Json)),
      signFields sig ((k, Json.null) :: rest) = .error ()) ∧
    ((runRule cfgFull uPlain ctxGh gEmpty envNullChild).main =
      [.netCall .oauthToken, .netCall .personGet, .profileBuilt, .callbackInvoked none] ∧
     (runRule cfgFull uPlain ctxGh gEmpty envNullChild).thrown = false) :=
  ⟨fun _ _ _ _ => rfl, fun _ _ _ _ => rfl, fun _ _ _ _ => rfl, fun _ _ _ _ => rfl,
   fun _ _ _ => rfl, rfl, rfl⟩

/- ## Claims C1 and C2 -/

/-- `cfgFull` with `personapi_audience` absent.  The configuration gate
(lines 14-22) does not check this key, and line 28 dereferences it. -/
def cfgNoAudience : Config := { cfgFull with personapi_audience := none }

/-- **C1** (code_bug).  With every checked key present but `personapi_audience`
absent, the gate passes and line 28 throws a synchronous `TypeError`
(`undefined.includes`): the run performs zero network calls but also never
invokes the completion hook — the exception escapes to the caller, contrary to
the claim (and to the gate's own "bail" comment on line 11). -/
theorem c1_missing_audience_throws :
    runRule cfgNoAudience uPlain ctxGh gEmpty envHappy =
      { main := [], deferred := [], thrown := true, g := gEmpty, meta := ⟨false⟩ } := rfl

/-- A warm token cache (fresh relative to `envHappy.now`). -/
def gWarm : Globals := ⟨some (.str "cached-token"), some 4990000⟩

/-- **C2** (code_bug).  At the same missing-audience input the completion hook
is invoked zero times (not exactly once) and an internal failure is raised to
the caller; the promise chain's catch-all never runs because the throw happens
synchronously before the chain is built. -/
theorem c2_failure_raised_to_caller :
    ((runRule cfgNoAudience uPlain ctxGh gWarm envHappy).main.countP
      (fun e => match e with | .callbackInvoked _ => true | _ => false)) = 0 ∧
    (runRule cfgNoAudience uPlain ctxGh gWarm envHappy).thrown = true :=
  ⟨rfl, rfl⟩

/- ## Claim C3 -/

/-- **C3** (code_bug).  `PERSONAPI_BEARER_TOKEN_REFRESH_AGE = 64800` is
compared against `Date.now() - creation_time`, a difference in *milliseconds*,
so the effective refresh window is 64.8 seconds, not the commented and claimed
18 hours: a one-hour-old token (age 3,600,000 ms) triggers a refresh request
(and the fresh token is stored with the current time), while a one-minute-old
token is still reused without I/O. -/
theorem c3_millisecond_refresh_window :
    (getBearerToken cfgFull ⟨some (.str "cached"), some 1000⟩ 3601000
      (.ok (.obj [("access_token", .str "fresh")]))).events = [.netCall .oauthToken] ∧
    (getBearerToken cfgFull ⟨some (.str "cached"), some 1000⟩ 61000
      (.ok (.obj [("access_token", .str "fresh")]))).events = [] ∧
    (getBearerToken cfgFull ⟨some (.str "cached"), some 1000⟩ 61000
      (.ok (.obj [("access_token", .str "fresh")]))).res = .ok (some (.str "cached")) ∧
    (getBearerToken cfgFull ⟨some (.str "cached"), some 1000⟩ 3601000
      (.ok (.obj [("access_token", .str "fresh")]))).g =
      ⟨some (.str "fresh"), some 3601000⟩ :=
  ⟨rfl, rfl, rfl, rfl⟩

/- ## Claim C8 -/

theorem getBearerToken_events (cfg : Config) (g : Globals) (now : Nat)
    (r : Except Unit Json) :
    (getBearerToken cfg g now r).events = [] ∨
    (getBearerToken cfg g now r).events = [.netCall .oauthToken] := by
  unfold getBearerToken
  split
  · exact Or.inl rfl
  · split
    · split
      · exact Or.inr rfl
      · exact Or.inr rfl
    · exact Or.inl rfl

/-- **C8** (confirmed).  Whenever the run reaches the existence check and the
store returns a non-empty object body, the rule marks the subject provisioned
(`existsInCIS = true` on the in-memory metadata) and performs no profile
build, no signing, and no submission call: the thrown "already exists" error
short-circuits straight to the catch-all, which invokes the completion hook. -/
theorem c8_exists_short_circuit
    (cfg : Config) (u : User) (ctx : Context) (g : Globals) (env : Env)
    (aud : String) (fs : List (String × Json)) (tok : Option Json)
    (hgate : (truthyS cfg.changeapi_auth0_private_key &&
              truthyS cfg.changeapi_null_profile &&
              truthyS cfg.changeapi_url &&
              truthyS cfg.personapi_client_id &&
              truthyS cfg.personapi_client_secret &&
              truthyS cfg.personapi_url) = true)
    (haud : cfg.personapi_audience = some aud)
    (hmis : (strIncludes aud "https" || strIncludes (cfg.personapi_url.getD "") "/v") = false)
    (hwl : WHITELISTED_CONNECTIONS.contains ctx.connectionStrategy = true)
    (hflag : (metadataOf ctx u).existsInCIS = false)
    (htok : (getBearerToken cfg g env.now env.oauthResult).res = .ok tok)
    (hperson : env.personResult = .ok (.obj fs))
    (hne : fs.length ≠ 0) :
    (runRule cfg u ctx g env).meta.existsInCIS = true ∧
    Event.profileBuilt ∉ (runRule cfg u ctx g env).main ∧
    Event.profileSigned ∉ (runRule cfg u ctx g env).main ∧
    Event.netCall .changePost ∉ (runRule cfg u ctx g env).main := by
  have H : (runRule cfg u ctx g env).main =
      (getBearerToken cfg g env.now env.oauthResult).events ++
        [.netCall .personGet] ++ (setExistsInCIS (metadataOf ctx u)).1 ++
        [.callbackInvoked none] ∧
      (runRule cfg u ctx g env).meta = (setExistsInCIS (metadataOf ctx u)).2 := by
    simp only [runRule, runAux, hgate, haud, hmis, hwl, hflag, hperson, htok,
      jsObjectKeysLen, Bool.not_true, if_pos hne]
    simp
  refine ⟨?_, ?_, ?_, ?_⟩
  · rw [H.2]
    rfl
  all_goals
    rw [H.1]
    rcases getBearerToken_events cfg g env.now env.oauthResult with he | he <;>
      rw [he] <;> simp [setExistsInCIS]

/-- The happy-path environment, but the store already holds a profile. -/
def envExists : Env := { envHappy with personResult := .ok (.obj [("user_id", .str "x")]) }

/-- **C8 witness**: a concrete run in which the store reports an existing
profile: the flag is set and no submission happens. -/
theorem c8_exists_short_circuit_witness :
    (runRule cfgFull uPlain ctxGh gEmpty envExists).meta.existsInCIS = true ∧
    Event.netCall .changePost ∉ (runRule cfgFull uPlain ctxGh gEmpty envExists).main :=
  ⟨(c8_exists_short_circuit cfgFull uPlain ctxGh gEmpty envExists
      "api.sso.example.com" [("user_id", .str "x")] (some (.str "tok"))
      rfl rfl rfl (by decide) rfl rfl rfl (by decide)).1,
   (c8_exists_short_circuit cfgFull uPlain ctxGh gEmpty envExists
      "api.sso.example.com" [("user_id", .str "x")] (some (.str "tok"))
      rfl rfl rfl (by decide) rfl rfl rfl (by decide)).2.2.2⟩

/- ## Claim C10 -/

/-- Whether an event is the settlement of the detached metadata update. -/
def isSettled : Event → Bool
  | .metadataUpdateSettled _ => true
  | _ => false

theorem runAux_main_no_settled (cfg : Config) (u : User) (ctx : Context) (g : Globals)
    (now : Nat) (nowIso : String) (oauthR personR changeR skelR : Except Unit Json)
    (sig : Json → String) :
    ((runAux cfg u ctx g now nowIso oauthR personR changeR skelR sig).main.all
      (fun e => !(isSettled e))) = true := by
  have htok : ∀ (g' : Globals) (r : Except Unit Json),
      ((getBearerToken cfg g' now r).events.all (fun e => !(isSettled e))) = true := by
    intro g' r
    rcases getBearerToken_events cfg g' now r with he | he <;> rw [he] <;> rfl
  simp only [runAux, setExistsInCIS]
  repeat' split
  all_goals simp only [List.all_append, Bool.and_eq_true]
  all_goals repeat' apply And.intro
  all_goals first
    | exact htok _ _
    | rfl

/-- **C10** (confirmed).  `setExistsInCIS` sets `existsInCIS = true` on the
in-memory metadata unconditionally, and does so *before* the remote metadata
update is even attempted (the local set precedes the update's network call in
its event list).  The update is not awaited: its settlement can only land in
the `deferred` part of the trace (`main ++ deferred`), while every completion
hook invocation is in `main`, so on the success path the hook fires before the
update finishes; and the update's outcome (`metadataUpdateOk`) never changes
the invocation's observable result — main events, thrown status, token cache
and final metadata are identical for a succeeding and a failing update. -/
theorem c10_mark_provisioned_detached :
    (∀ m : Meta, (setExistsInCIS m).2.existsInCIS = true ∧
      (setExistsInCIS m).1 = [.localMetadataSet true, .netCall .metadataUpdate]) ∧
    (∀ (cfg : Config) (u : User) (ctx : Context) (g : Globals) (env : Env) (b : Bool),
      (runRule cfg u ctx g { env with metadataUpdateOk := b }).main =
        (runRule cfg u ctx g env).main ∧
      (runRule cfg u ctx g { env with metadataUpdateOk := b }).thrown =
        (runRule cfg u ctx g env).thrown ∧
      (runRule cfg u ctx g { env with metadataUpdateOk := b }).g =
        (runRule cfg u ctx g env).g ∧
      (runRule cfg u ctx g { env with metadataUpdateOk := b }).meta =
        (runRule cfg u ctx g env).meta) ∧
    (∀ (cfg : Config) (u : User) (ctx : Context) (g : Globals) (env : Env),
      (runRule cfg u ctx g env).main.all (fun e => !(isSettled e)) = true ∧
      (runRule cfg u ctx g env).deferred.all isSettled = true) := by
  refine ⟨fun m => ⟨rfl, rfl⟩, fun cfg u ctx g env b => ⟨rfl, rfl, rfl, rfl⟩, ?_⟩
  intro cfg u ctx g env
  constructor
  · exact runAux_main_no_settled cfg u ctx g env.now env.nowIso env.oauthResult
      env.personResult env.changeResult env.decodedSkeleton env.sigFun
  · simp only [runRule]
    split <;> rfl
